import Mathlib

/-!
Shallow embedding of the scoring and tie-break engine of the nourished-quiz
widget (`src/app/QuizClient.jsx` and `src/unnamed/part_000`, a copy of
`QuizResults.jsx`), together with theorems about it.

Modelling conventions:
* JavaScript objects used as string-keyed maps are association lists kept in
  insertion order; property update keeps the original position and property
  creation appends (`objSet`), which is exactly the enumeration-order rule of
  JS objects and of `Map.set`.  Object literals and the maps built by the code
  never carry duplicate keys, so first-match lookup agrees with JS lookup.
* `null`/`undefined` inputs are `Option.none`.  A key that is absent and a key
  holding `null` are identified (the code only distinguishes answers with
  `== null` / `!= null`, and never stores `null` as an answer value).
* `String.prototype.toLowerCase` is mapped per character with `Char.toLower`
  (the titles and labels involved are ASCII plus curly quotes, on which the
  two agree); the regex class `\s` is modelled by `jsWhitespace`.
* Slider answers are integers (the range input produces 1..5); `Number(v)` on
  an integer is the identity, `Number.isFinite` holds, and `Number(s)` on a
  string matching `/^[0-9]+$/` is `String.toNat?`.
* Tally values are natural numbers, as produced by the `add` helper; on
  naturals `Number(v || 0)` is the identity.
* A thrown TypeError is `Except.error ()`.
-/

namespace NourishedQuiz

/-- JS value stored in an answer map: a single option id/label string, an
array of option ids/labels (multi-choice), or a numeric slider value. -/
inductive AnswerValue where
  | str (s : String)
  | arr (xs : List String)
  | num (n : Int)
deriving DecidableEq

/-- Answer map: question id or question title to recorded answer value. -/
abbrev AnswerSet := List (String × AnswerValue)

/-- Option-weights map of one question: option label to product-code list. -/
abbrev OptionWeights := List (String × List String)

/-- Weight table: question title to option weights. -/
abbrev WeightTable := List (String × OptionWeights)

/-- Tally map: product code to accumulated score. -/
abbrev Tally := List (String × Nat)

/-- Option record of a question, as produced by `normalizeOptionsFromAny` /
`buildOptionLabelIndex` (`String(a?.id ?? ...)`, `String(a?.label ?? ...)`). -/
structure QOpt where
  id : String
  label : String
deriving DecidableEq

/-- Question record: `{ id, title, answers }` as used by the scorer (the
transformed questions of `QuizClient.jsx` store their options under the field
name `answers`). -/
structure Question where
  id : String
  title : String
  answers : List QOpt
deriving DecidableEq

/-- JS object property assignment `m[k] = v`: updating an existing key keeps
its enumeration position, creating a key appends it.  `Map.set` behaves the
same way. -/
def objSet {β : Type} (m : List (String × β)) (k : String) (v : β) :
    List (String × β) :=
  if (m.lookup k).isSome then
    m.map (fun p => if p.1 = k then (p.1, v) else p)
  else
    m ++ [(k, v)]

/-- Builds a JS `Map` from a pair list (`new Map(pairs)`): later pairs with a
duplicate key overwrite the value but keep the first insertion position. -/
def mapFromPairs {β : Type} (ps : List (String × β)) : List (String × β) :=
  ps.foldl (fun m p => objSet m p.1 p.2) []

/-- Reads `tallies[code] || 0`. -/
def tget (t : Tally) (code : String) : Nat :=
  (t.lookup code).getD 0

/-- Reads `Number(tallies?.[code] || 0)` for a possibly-null tally map. -/
def tgetOpt (t : Option Tally) (code : String) : Nat :=
  match t with
  | some t => tget t code
  | none => 0

/-- The `add` helper of both scorers:
`if (!code) return; tallies[code] = (tallies[code] || 0) + 1;`. -/
def addCode (t : Tally) (code : String) : Tally :=
  if code = "" then t
  else if (t.lookup code).isSome then
    t.map (fun p => if p.1 = code then (p.1, p.2 + 1) else p)
  else
    t ++ [(code, 1)]

/-- Character class `\s` of the JS regexes used by `norm` and of
`String.prototype.trim` (ASCII whitespace plus no-break space; the exotic
Unicode space code points never occur in the data). -/
def jsWhitespace (c : Char) : Bool :=
  c = ' ' || c = '\t' || c = '\n' || c = '\r' ||
    c = Char.ofNat 11 || c = Char.ofNat 12 || c = Char.ofNat 160

/-- Characters of the class `[’“”"']` that `norm` rewrites to
an ASCII apostrophe. -/
def isQuoteChar (c : Char) : Bool :=
  c.toNat = 0x2019 || c.toNat = 0x201C || c.toNat = 0x201D ||
    c.toNat = 34 || c.toNat = 39

/-- Replaces every maximal run of `\s` characters by a single space, i.e.
`.replace(/\s+/g, " ")`.  The flag records whether the previous character was
whitespace. -/
def collapseWsAux : Bool → List Char → List Char
  | _, [] => []
  | prevWs, c :: rest =>
    if jsWhitespace c then
      if prevWs then collapseWsAux true rest
      else ' ' :: collapseWsAux true rest
    else c :: collapseWsAux false rest

/-- JS `String.prototype.trim`: strip leading and trailing `\s` characters. -/
def jsTrim (l : List Char) : List Char :=
  ((l.dropWhile jsWhitespace).reverse.dropWhile jsWhitespace).reverse

/-- The title/label normaliser `norm` of `QuizClient.jsx`: lowercase, collapse
whitespace runs to one space, unify curly/straight quotes to `'`, trim. -/
def norm (s : String) : String :=
  (jsTrim ((collapseWsAux false (s.toList.map Char.toLower)).map
    (fun c => if isQuoteChar c then Char.ofNat 39 else c))).asString

/-- Does the second list start with the first one? -/
def leadsWith : List Char → List Char → Bool
  | [], _ => true
  | _ :: _, [] => false
  | a :: as, b :: bs => a = b && leadsWith as bs

/-- Is the first list a contiguous sublist of the second one? -/
def charsIncl (sub : List Char) : List Char → Bool
  | [] => sub.isEmpty
  | c :: rest => leadsWith sub (c :: rest) || charsIncl sub rest

/-- JS `s.includes(sub)`: substring containment. -/
def jsIncludes (s sub : String) : Bool :=
  charsIncl sub.toList s.toList

/-- The fixed tie-break order of product codes, `PRODUCT_ORDER`, identical in
both files. -/
def PRODUCT_ORDER : List String :=
  ["Eic", "Epi", "Meca", "Ecp", "Cpe", "hcb", "Hpes", "Rnp", "Bmca", "Mjb",
   "Spe", "Shp", "Gsi"]

/-- The exact title of the tie-break priorities question, `PRIORITIES_TITLE`,
identical in both files. -/
def PRIORITIES_TITLE : String :=
  "Which of the below are your top two priorities in the upcoming months?"

/-- The `title -> { id -> label }` index `buildOptionLabelIndex` of
`QuizClient.jsx`: for each question, map every option id with a truthy id to
its label; questions with a falsy title are not indexed. -/
def buildOptionLabelIndex (questions : List Question) :
    List (String × List (String × String)) :=
  questions.foldl
    (fun index q =>
      let m := q.answers.foldl
        (fun m a => if a.id = "" then m else objSet m a.id a.label) []
      if q.title = "" then index else objSet index q.title m)
    []

/-- The `weightsNorm` map of `scoreAnswers` in `QuizClient.jsx`:
`new Map(Object.entries(weightsMap).map(([t, map]) => [norm(t), {title: t,
map}]))`.  The value `{title, map}` is the pair `(title, map)`. -/
def weightsNormOf (wm : WeightTable) :
    List (String × (String × OptionWeights)) :=
  mapFromPairs (wm.map (fun p => (norm p.1, p)))

/-- The `for (const [kn, obj] of weightsNorm.entries())` fallback loop of
`findWeightsForTitle`: first entry whose normalised key contains or is
contained in the normalised question title. -/
def findContainment (n : String) :
    List (String × (String × OptionWeights)) → Option (String × OptionWeights)
  | [] => none
  | (kn, obj) :: rest =>
    if jsIncludes n kn || jsIncludes kn n then some obj
    else findContainment n rest

/-- The `findWeightsForTitle` closure of `scoreAnswers` in `QuizClient.jsx`:
exact normalised lookup, then the containment fallback. -/
def findWeightsForTitle (wn : List (String × (String × OptionWeights)))
    (qTitle : String) : Option (String × OptionWeights) :=
  match wn.lookup (norm qTitle) with
  | some obj => some obj
  | none => findContainment (norm qTitle) wn

/-- The `sliderBucketLabel` closure of `scoreAnswers` in `QuizClient.jsx`:
first key of the option map is the low bucket, last key the high bucket;
values `<= 2` map low, `>= 4` map high, the strict middle maps to null. -/
def sliderBucketLabel (optionMap : OptionWeights) (value : Int) :
    Option String :=
  match optionMap.map Prod.fst with
  | [] => none
  | k :: ks =>
    if value ≤ 2 then some k
    else if 4 ≤ value then some ((k :: ks).getLast (List.cons_ne_nil k ks))
    else none

/-- Evaluates `optionMapNorm.get(norm(lab)) || lab`, where `opn` is the
`optionMapNorm` map from normalised labels to labels. -/
def normFix (opn : List (String × String)) (lab : String) : String :=
  match opn.lookup (norm lab) with
  | some l => if l = "" then lab else l
  | none => lab

/-- The `idToLabel` closure of `scoreAnswers` in `QuizClient.jsx`: keep a
value that already is an option-map key, otherwise translate an option id via
the label index (if that yields a truthy label that is a key), otherwise fall
back to the normalised-label map. -/
def idToLabel (optionMap : OptionWeights) (opn lidx : List (String × String))
    (v : String) : String :=
  if (optionMap.lookup v).isSome then v
  else
    match lidx.lookup v with
    | some lbl =>
      if lbl ≠ "" ∧ (optionMap.lookup lbl).isSome then lbl
      else normFix opn v
    | none => normFix opn v

/-- Tests `/^[0-9]+$/.test(s)` and evaluates `Number(s)` on success: at least
one character, all decimal digits, decimal value. -/
def jsDigits (s : String) : Option Nat :=
  if s.toList ≠ [] ∧ s.toList.all (fun c => c.isDigit) then
    some (s.toList.foldl (fun n c => n * 10 + (c.toNat - 48)) 0)
  else none

/-- Slider arm of the label normalisation of `scoreAnswers`:
`const lab = sliderBucketLabel(optionMap, chosen);
if (lab && optionMap[lab]) labels = [lab];`. -/
def sliderResolve (optionMap : OptionWeights) (n : Int) : List String :=
  match sliderBucketLabel optionMap n with
  | some lab =>
    if lab ≠ "" ∧ (optionMap.lookup lab).isSome then [lab] else []
  | none => []

/-- The `labels` computation of `scoreAnswers` in `QuizClient.jsx`: resolve a
raw answer value to the option-map labels it scores under.  A string matching
`/^[0-9]+$/` takes the slider branch, any other string the single branch. -/
def resolveLabels (optionMap : OptionWeights)
    (opn lidx : List (String × String)) (chosen : AnswerValue) :
    List String :=
  match chosen with
  | AnswerValue.arr xs =>
    ((xs.map (idToLabel optionMap opn lidx)).map (normFix opn)).filter
      (fun lab => (optionMap.lookup lab).isSome)
  | AnswerValue.num n => sliderResolve optionMap n
  | AnswerValue.str s =>
    match jsDigits s with
    | some n => sliderResolve optionMap (n : Int)
    | none =>
      let lab := normFix opn (idToLabel optionMap opn lidx s)
      if (optionMap.lookup lab).isSome then [lab] else []

/-- Scores a label list into the tally:
`labels.forEach((lab) => (optionMap[lab] || []).forEach((code) =>
add(code, 1)))`.  The multi-choice branch of `scoreAnswers` in `part_000`
(`chosen.forEach((opt) => (optionMap[opt] || []).forEach(...))`) is the same
combinator applied to the raw selected options. -/
def tallyLabels (optionMap : OptionWeights) (labels : List String)
    (t : Tally) : Tally :=
  labels.foldl (fun acc lab => ((optionMap.lookup lab).getD []).foldl addCode acc) t

/-- Reads `answers[qTitle] ?? answers[q.id]` (the `== null` fallback). -/
def jsChosen (ans : AnswerSet) (q : Question) : Option AnswerValue :=
  match ans.lookup q.title with
  | some v => some v
  | none => ans.lookup q.id

/-- The per-question body of the `questions.forEach` loop of `scoreAnswers`
in `QuizClient.jsx`.  Nothing in the body can throw on the typed data, so the
`try`/`catch` is not represented. -/
def scoreQuestion (ans : AnswerSet)
    (labelIndex : List (String × List (String × String)))
    (wn : List (String × (String × OptionWeights))) (t : Tally)
    (q : Question) : Tally :=
  if q.title = "" then t
  else
    match findWeightsForTitle wn q.title with
    | none => t
    | some found =>
      let optionMap := found.2
      let opn := mapFromPairs (optionMap.map (fun p => (norm p.1, p.1)))
      match jsChosen ans q with
      | none => t
      | some chosen =>
        let lidx := (labelIndex.lookup q.title).getD []
        tallyLabels optionMap (resolveLabels optionMap opn lidx chosen) t

/-- The `scoreAnswers(answers, weightsMap, questions)` function of
`QuizClient.jsx`.  `if (!answers || !weightsMap) return tallies;` returns the
empty tally when either input is null/absent. -/
def scoreAnswers (answers : Option AnswerSet) (weightsMap : Option WeightTable)
    (questions : List Question) : Tally :=
  match answers, weightsMap with
  | some ans, some wm =>
    let labelIndex := buildOptionLabelIndex questions
    let wn := weightsNormOf wm
    questions.foldl (fun t q => scoreQuestion ans labelIndex wn t q) []
  | _, _ => []

/-- The `scoreAnswers(answersByTitle, weightsMap)` function of `part_000`:
iterate the weight-table titles, look the title up in the answers, and score
an array answer per element and a scalar answer directly as an option-map key
(a numeric answer is coerced to its decimal string by JS property access). -/
def scoreAnswersR (answersByTitle : AnswerSet) (weightsMap : Option WeightTable) :
    Tally :=
  (weightsMap.getD []).foldl
    (fun t p =>
      match answersByTitle.lookup p.1 with
      | some (AnswerValue.arr xs) => tallyLabels p.2 xs t
      | some (AnswerValue.str s) => ((p.2.lookup s).getD []).foldl addCode t
      | some (AnswerValue.num n) =>
        ((p.2.lookup (toString n)).getD []).foldl addCode t
      | none => t)
    []

/-- One step of the mirroring loop of `normaliseAnswersByTitle` in
`part_000`: skip questions with a falsy id or title; copy the id-keyed value
under the title key only when the id key is non-null and the title key is
null/absent. -/
def normStep (out : AnswerSet) (q : Question) : AnswerSet :=
  if q.id = "" ∨ q.title = "" then out
  else
    match out.lookup q.id with
    | some v =>
      match out.lookup q.title with
      | none => objSet out q.title v
      | some _ => out
    | none => out

/-- The `normaliseAnswersByTitle(answers, questions)` function of `part_000`:
spread the (possibly null) answers into a fresh object, then mirror id-keyed
values under the question titles without overwriting. -/
def normaliseAnswersByTitle (answers : Option AnswerSet)
    (questions : List Question) : AnswerSet :=
  questions.foldl normStep (answers.getD [])

/-- One iteration of the max/leaders loop shared verbatim by both
`pickWinner` implementations.  The accumulator `none` is the initial
`max = -Infinity, leaders = []` state; every tally value is a natural number
and therefore strictly exceeds `-Infinity`, and never equals it. -/
def leadersStep (val : String → Nat) (acc : Option (Nat × List String))
    (code : String) : Option (Nat × List String) :=
  match acc with
  | none => some (val code, [code])
  | some (m, ls) =>
    if val code > m then some (val code, [code])
    else if val code = m then some (m, ls ++ [code])
    else some (m, ls)

/-- The `PRODUCT_ORDER.forEach` / `order.forEach` loop computing the highest
tally and the tied leaders, in order. -/
def computeLeaders (val : String → Nat) (order : List String) :
    Option (Nat × List String) :=
  order.foldl (leadersStep val) none

/-- Running maximum of tally values over a code list, seeded with `m`. -/
def runMax (val : String → Nat) (m : Nat) (l : List String) : Nat :=
  l.foldl (fun a c => max a (val c)) m

/-- The leaders list the max/leaders loop computes over `PRODUCT_ORDER` for a
given tally-reading function. -/
def leadersPO (val : String → Nat) : List String :=
  ((computeLeaders val PRODUCT_ORDER).map Prod.snd).getD []

/-- The leaders list `pickWinner` computes for a given tally map. -/
def leadersOf (t : Tally) : List String :=
  leadersPO (fun code => tget t code)

/-- The priority tie-break loop shared verbatim by both `pickWinner`
implementations: for each selected option, take the first code it maps to and
return it if it is truthy and among the leaders. -/
def tieBreakLoop (priMap : OptionWeights) (leaders : List String) :
    List String → Option String
  | [] => none
  | opt :: rest =>
    match ((priMap.lookup opt).getD []).head? with
    | some m =>
      if m ≠ "" ∧ m ∈ leaders then some m
      else tieBreakLoop priMap leaders rest
    | none => tieBreakLoop priMap leaders rest

/-- Reads `weightsMap?.[PRIORITIES_TITLE]`. -/
def priLookupW (w : Option WeightTable) : Option OptionWeights :=
  w.bind (fun wm => wm.lookup PRIORITIES_TITLE)

/-- Reads `answers?.[PRIORITIES_TITLE]`. -/
def priLookupA (a : Option AnswerSet) : Option AnswerValue :=
  a.bind (fun m => m.lookup PRIORITIES_TITLE)

/-- JS `Array.prototype.indexOf`: index of the first occurrence, `-1` when
absent. -/
def jsIndexOf (l : List String) (x : String) : Int :=
  match l.findIdx? (fun y => y = x) with
  | some i => (i : Int)
  | none => -1

/-- Stable insertion used to model `Array.prototype.sort` with the comparator
`(a, b) => order.indexOf(a) - order.indexOf(b)`: an element is inserted after
all already-placed elements whose key is not larger. -/
def insertStable (idx : String → Int) (x : String) :
    List String → List String
  | [] => [x]
  | y :: ys => if idx x < idx y then x :: y :: ys else y :: insertStable idx x ys

/-- Stable sort by `idx` (JS `sort` is specified stable); identical to the
unique stable ascending reordering the JS comparator produces. -/
def sortStable (idx : String → Int) (xs : List String) : List String :=
  xs.foldl (fun acc x => insertStable idx x acc) []

/-- Final fallback of `pickWinner` in `QuizClient.jsx`:
`leaders.sort((a, b) => order.indexOf(a) - order.indexOf(b))[0] || null`. -/
def stage3C (leaders : List String) : Option String :=
  match (sortStable (jsIndexOf PRODUCT_ORDER) leaders).head? with
  | some s => if s = "" then none else some s
  | none => none

/-- Final fallback of `pickWinner` in `part_000`:
`leaders.sort((a, b) => PRODUCT_ORDER.indexOf(a) - PRODUCT_ORDER.indexOf(b))[0]`
(undefined, i.e. `none`, on an empty list). -/
def stage3R (leaders : List String) : Option String :=
  (sortStable (jsIndexOf PRODUCT_ORDER) leaders).head?

/-- Stages 2 and 3 of `pickWinner` in `QuizClient.jsx`, entered when more
than one leader is tied: run the priority tie-break when
`priMap && Array.isArray(priAns) && priAns.length`, otherwise or on
fall-through use the stable-order fallback. -/
def stage23C (leaders : List String) (answers : Option AnswerSet)
    (weightsMap : Option WeightTable) : Option String :=
  match priLookupW weightsMap, priLookupA answers with
  | some priMap, some (AnswerValue.arr ps) =>
    if ps = [] then stage3C leaders
    else
      match tieBreakLoop priMap leaders ps with
      | some m => some m
      | none => stage3C leaders
  | _, _ => stage3C leaders

/-- Stages 2 and 3 of `pickWinner` in `part_000`; the same lines of code,
with the bare `[0]` fallback of that file. -/
def stage23R (leaders : List String) (answers : Option AnswerSet)
    (weightsMap : Option WeightTable) : Option String :=
  match priLookupW weightsMap, priLookupA answers with
  | some priMap, some (AnswerValue.arr ps) =>
    if ps = [] then stage3R leaders
    else
      match tieBreakLoop priMap leaders ps with
      | some m => some m
      | none => stage3R leaders
  | _, _ => stage3R leaders

/-- The `pickWinner(tallies, answers, weightsMap)` function of
`QuizClient.jsx`: guarded for an empty order, a null tally map, empty leaders
and a falsy final winner. -/
def pickWinnerC (tallies : Option Tally) (answers : Option AnswerSet)
    (weightsMap : Option WeightTable) : Option String :=
  if PRODUCT_ORDER.isEmpty then none
  else
    match computeLeaders (fun code => tgetOpt tallies code) PRODUCT_ORDER with
    | none => none
    | some (_, leaders) =>
      if leaders = [] then none
      else if leaders.length = 1 then leaders.head?
      else stage23C leaders answers weightsMap

/-- The body of `pickWinner` in `part_000` once `tallies[code]` is known not
to throw (`tallies` non-null).  With the empty order the fold yields `none`,
the tie-break never matches against empty leaders, and `[].sort(...)[0]` is
undefined, here `none`. -/
def pickWinnerRcore (t : Tally) (answers : Option AnswerSet)
    (weightsMap : Option WeightTable) : Option String :=
  match computeLeaders (fun code => tget t code) PRODUCT_ORDER with
  | none => none
  | some (_, leaders) =>
    if leaders.length = 1 then leaders.head?
    else stage23R leaders answers weightsMap

/-- The `pickWinner(tallies, answersByTitle, weightsMap)` function of
`part_000`.  Its very first loop body reads `tallies[code]`, which throws a
TypeError when `tallies` is null/undefined (`PRODUCT_ORDER` is non-empty, so
the loop body runs). -/
def pickWinnerR (tallies : Option Tally) (answers : Option AnswerSet)
    (weightsMap : Option WeightTable) : Except Unit (Option String) :=
  match tallies with
  | none => Except.error ()
  | some t => Except.ok (pickWinnerRcore t answers weightsMap)

/-! ### Association-list lemmas -/

theorem lookup_append_of_some {β : Type} {l : List (String × β)} {k : String}
    {v : β} (h : l.lookup k = some v) (l' : List (String × β)) :
    (l ++ l').lookup k = some v := by
  induction l with
  | nil => simp [List.lookup] at h
  | cons p l ih =>
    obtain ⟨k', v'⟩ := p
    simp only [List.cons_append, List.lookup] at h ⊢
    by_cases hk : k == k'
    · simpa [hk] using h
    · simp only [hk] at h ⊢
      exact ih h

theorem lookup_append_of_none {β : Type} {l : List (String × β)} {k : String}
    (h : l.lookup k = none) (l' : List (String × β)) :
    (l ++ l').lookup k = l'.lookup k := by
  induction l with
  | nil => simp
  | cons p l ih =>
    obtain ⟨k', v'⟩ := p
    simp only [List.cons_append, List.lookup] at h ⊢
    by_cases hk : k == k'
    · simp [hk] at h
    · simp only [hk] at h ⊢
      exact ih h

theorem lookup_map_bump (t : Tally) (code X : String) :
    (t.map (fun p => if p.1 = code then (p.1, p.2 + 1) else p)).lookup X =
      (t.lookup X).map (fun v => if X = code then v + 1 else v) := by
  induction t with
  | nil => rfl
  | cons p t ih =>
    obtain ⟨k, v⟩ := p
    have hpair : (if (k, v).1 = code then ((k, v).1, (k, v).2 + 1) else (k, v)) =
        if k = code then (k, v + 1) else (k, v) := by
      by_cases hk : k = code <;> simp [hk]
    rw [List.map_cons, hpair]
    by_cases hk : k = code
    · rw [if_pos hk]
      by_cases hX : X = k
      · subst hX
        have hXc : X = code := hk
        simp [List.lookup, hXc]
      · have hb : (X == k) = false := by simpa using hX
        simp only [List.lookup, hb]
        exact ih
    · rw [if_neg hk]
      by_cases hX : X = k
      · subst hX
        have hXc : ¬ X = code := hk
        simp [List.lookup, hXc]
      · have hb : (X == k) = false := by simpa using hX
        simp only [List.lookup, hb]
        exact ih

theorem tget_addCode (t : Tally) (c X : String) (hX : X ≠ "") :
    tget (addCode t c) X = tget t X + (if c = X then 1 else 0) := by
  unfold addCode
  by_cases hc : c = ""
  · have h2 : ¬ ("" : String) = X := fun h => hX h.symm
    simp [hc, h2]
  · rw [if_neg hc]
    by_cases hs : (t.lookup c).isSome
    · rw [if_pos hs]
      unfold tget
      rw [lookup_map_bump]
      by_cases hXc : X = c
      · subst hXc
        obtain ⟨v, hv⟩ := Option.isSome_iff_exists.mp hs
        simp [hv]
      · have : ¬ c = X := fun h => hXc h.symm
        cases h : t.lookup X <;> simp [hXc, this, h]
    · rw [if_neg hs]
      unfold tget
      have hnone : t.lookup c = none := Option.not_isSome_iff_eq_none.mp hs
      by_cases hXc : X = c
      · subst hXc
        rw [lookup_append_of_none hnone]
        simp [hnone, List.lookup]
      · have hcs : ¬ c = X := fun h => hXc h.symm
        cases h : t.lookup X with
        | some v => rw [lookup_append_of_some h]; simp [hcs]
        | none =>
          rw [lookup_append_of_none h]
          simp only [List.lookup]
          have : (X == c) = false := by simpa using hXc
          simp [this, hcs]

theorem tget_foldl_addCode (codes : List String) (t : Tally) (X : String)
    (hX : X ≠ "") :
    tget (codes.foldl addCode t) X = tget t X + codes.count X := by
  induction codes generalizing t with
  | nil => simp
  | cons c cs ih =>
    rw [List.foldl_cons, ih (addCode t c), tget_addCode t c X hX]
    have : (c :: cs).count X = cs.count X + (if c = X then 1 else 0) := by
      by_cases h : c = X <;> simp [List.count_cons, h]
    rw [this]
    omega

theorem tget_tallyLabels (om : OptionWeights) (labels : List String) (t : Tally)
    (X : String) (hX : X ≠ "") :
    tget (tallyLabels om labels t) X =
      tget t X +
        (labels.map (fun lab => ((om.lookup lab).getD []).count X)).sum := by
  induction labels generalizing t with
  | nil => simp [tallyLabels]
  | cons lab labs ih =>
    have hstep : tallyLabels om (lab :: labs) t =
        tallyLabels om labs (((om.lookup lab).getD []).foldl addCode t) := rfl
    rw [hstep, ih, tget_foldl_addCode _ _ _ hX]
    simp
    omega

/-! ### Characterisation of the max/leaders loop -/

theorem runMax_cons (val : String → Nat) (m : Nat) (c : String)
    (cs : List String) :
    runMax val m (c :: cs) = runMax val (max m (val c)) cs := rfl

theorem runMax_ge_init (val : String → Nat) :
    ∀ (l : List String) (m : Nat), m ≤ runMax val m l := by
  intro l
  induction l with
  | nil => intro m; simp [runMax]
  | cons c cs ih =>
    intro m
    rw [runMax_cons]
    exact le_trans (Nat.le_max_left _ _) (ih _)

theorem runMax_ge_mem (val : String → Nat) :
    ∀ (l : List String) (m : Nat) (x : String), x ∈ l →
      val x ≤ runMax val m l := by
  intro l
  induction l with
  | nil => intro m x hx; simp at hx
  | cons c cs ih =>
    intro m x hx
    rw [runMax_cons]
    rcases List.mem_cons.mp hx with h | h
    · subst h
      exact le_trans (Nat.le_max_right _ _) (runMax_ge_init val cs _)
    · exact ih _ x h

theorem runMax_le (val : String → Nat) :
    ∀ (l : List String) (m k : Nat), m ≤ k → (∀ x ∈ l, val x ≤ k) →
      runMax val m l ≤ k := by
  intro l
  induction l with
  | nil => intro m k hm _; simpa [runMax] using hm
  | cons c cs ih =>
    intro m k hm hl
    rw [runMax_cons]
    exact ih _ k (max_le hm (hl c (List.mem_cons_self c cs)))
      (fun x hx => hl x (List.mem_cons_of_mem c hx))

theorem runMax_attained (val : String → Nat) :
    ∀ (l : List String) (m : Nat),
      runMax val m l = m ∨ ∃ x ∈ l, runMax val m l = val x := by
  intro l
  induction l with
  | nil => intro m; left; rfl
  | cons c cs ih =>
    intro m
    rw [runMax_cons]
    rcases ih (max m (val c)) with h | ⟨x, hx, he⟩
    · rcases Nat.le_total m (val c) with hle | hle
      · right
        exact ⟨c, List.mem_cons_self c cs, by rw [h, Nat.max_eq_right hle]⟩
      · left
        rw [h, Nat.max_eq_left hle]
    · right
      exact ⟨x, List.mem_cons_of_mem c hx, he⟩

theorem foldl_leadersStep (val : String → Nat) :
    ∀ (rest : List String) (m : Nat) (ls : List String),
      rest.foldl (leadersStep val) (some (m, ls)) =
        some (runMax val m rest,
          (if runMax val m rest = m then ls else []) ++
            rest.filter (fun c => val c == runMax val m rest)) := by
  intro rest
  induction rest with
  | nil => intro m ls; simp [runMax]
  | cons c cs ih =>
    intro m ls
    rw [List.foldl_cons, runMax_cons]
    rcases Nat.lt_trichotomy m (val c) with h1 | h2 | h3
    · have hstep : leadersStep val (some (m, ls)) c = some (val c, [c]) := by
        simp [leadersStep, h1]
      rw [hstep, ih (val c) [c], Nat.max_eq_right (le_of_lt h1)]
      have hge : val c ≤ runMax val (val c) cs := runMax_ge_init val cs _
      have hne : ¬ runMax val (val c) cs = m := by omega
      rw [if_neg hne, List.filter_cons]
      by_cases hc : runMax val (val c) cs = val c
      · have hb : (val c == runMax val (val c) cs) = true := by simp [hc]
        simp [hc, hb]
      · have hb : (val c == runMax val (val c) cs) = false := by
          simpa using fun h => hc h.symm
        simp [hc, hb]
    · have hstep : leadersStep val (some (m, ls)) c = some (m, ls ++ [c]) := by
        simp [leadersStep, h2]
      rw [hstep, ih m (ls ++ [c]), Nat.max_eq_left (le_of_eq h2.symm)]
      rw [List.filter_cons]
      by_cases hM : runMax val m cs = m
      · have hvc : val c = m := h2.symm
        have hb : (val c == runMax val m cs) = true := by rw [hM]; simp [hvc]
        simp [hM, hb, hvc]
      · have hb : (val c == runMax val m cs) = false := by
          have hgi : m ≤ runMax val m cs := runMax_ge_init val cs m
          have hne2 : ¬ val c = runMax val m cs := by omega
          simpa using hne2
        simp [hM, hb]
    · have hngt : ¬ val c > m := by omega
      have hnem : ¬ val c = m := by omega
      have hstep : leadersStep val (some (m, ls)) c = some (m, ls) := by
        simp [leadersStep, hngt, hnem]
      rw [hstep, ih m ls, Nat.max_eq_left (le_of_lt h3)]
      rw [List.filter_cons]
      have hb : (val c == runMax val m cs) = false := by
        have hgi : m ≤ runMax val m cs := runMax_ge_init val cs m
        have hne2 : ¬ val c = runMax val m cs := by omega
        simpa using hne2
      simp [hb]

theorem computeLeaders_eq (val : String → Nat) (c : String) (cs : List String) :
    computeLeaders val (c :: cs) =
      some (runMax val (val c) cs,
        (c :: cs).filter (fun x => val x == runMax val (val c) cs)) := by
  unfold computeLeaders
  rw [List.foldl_cons]
  have hstep : leadersStep val none c = some (val c, [c]) := rfl
  rw [hstep, foldl_leadersStep val cs (val c) [c], List.filter_cons]
  by_cases hc : runMax val (val c) cs = val c
  · have hb : (val c == runMax val (val c) cs) = true := by simp [hc]
    simp [hc, hb]
  · have hb : (val c == runMax val (val c) cs) = false := by
      simpa using fun h => hc h.symm
    simp [hc, hb]

/-- The maximum tally `pickWinner` computes over `PRODUCT_ORDER`. -/
theorem computeLeaders_PO (val : String → Nat) :
    computeLeaders val PRODUCT_ORDER =
      some (runMax val (val "Eic") (PRODUCT_ORDER.drop 1),
        PRODUCT_ORDER.filter
          (fun x => val x == runMax val (val "Eic") (PRODUCT_ORDER.drop 1))) :=
  computeLeaders_eq val "Eic" (PRODUCT_ORDER.drop 1)

theorem leadersPO_eq (val : String → Nat) :
    leadersPO val =
      PRODUCT_ORDER.filter
        (fun x => val x == runMax val (val "Eic") (PRODUCT_ORDER.drop 1)) := by
  rw [leadersPO, computeLeaders_PO]
  rfl

theorem computeLeaders_leadersPO (val : String → Nat) :
    computeLeaders val PRODUCT_ORDER =
      some (runMax val (val "Eic") (PRODUCT_ORDER.drop 1), leadersPO val) := by
  rw [leadersPO_eq, computeLeaders_PO]

theorem leadersPO_ne_nil (val : String → Nat) :
    PRODUCT_ORDER.filter
      (fun x => val x == runMax val (val "Eic") (PRODUCT_ORDER.drop 1)) ≠ [] := by
  have hatt : ∃ x ∈ PRODUCT_ORDER,
      val x = runMax val (val "Eic") (PRODUCT_ORDER.drop 1) := by
    rcases runMax_attained val (PRODUCT_ORDER.drop 1) (val "Eic") with h | ⟨x, hx, he⟩
    · exact ⟨"Eic", by decide, h.symm⟩
    · exact ⟨x, List.drop_subset 1 PRODUCT_ORDER hx, he.symm⟩
  obtain ⟨x, hxm, hxv⟩ := hatt
  have : x ∈ PRODUCT_ORDER.filter
      (fun x => val x == runMax val (val "Eic") (PRODUCT_ORDER.drop 1)) :=
    List.mem_filter.mpr ⟨hxm, by simp [hxv]⟩
  exact List.ne_nil_of_mem this

theorem filter_eq_singleton (p : String → Bool) (l : List String) (A : String)
    (hnd : l.Nodup) (hA : A ∈ l) (hp : p A = true)
    (ho : ∀ x ∈ l, x ≠ A → p x = false) : l.filter p = [A] := by
  induction l with
  | nil => simp at hA
  | cons b bs ih =>
    rcases List.mem_cons.mp hA with hbA | hbs
    · subst hbA
      rw [List.filter_cons, if_pos (by simp [hp])]
      have hnotin : A ∉ bs := (List.nodup_cons.mp hnd).1
      have hnil : bs.filter p = [] := by
        apply List.filter_eq_nil_iff.mpr
        intro x hx
        have hxA : x ≠ A := fun h => hnotin (h ▸ hx)
        simp [ho x (List.mem_cons_of_mem A hx) hxA]
      rw [hnil]
    · have hbA : b ≠ A := by
        intro h
        subst h
        exact (List.nodup_cons.mp hnd).1 hbs
      rw [List.filter_cons, if_neg (by simp [ho b (List.mem_cons_self b bs) hbA])]
      exact ih (List.nodup_cons.mp hnd).2 hbs
        (fun x hx hxA => ho x (List.mem_cons_of_mem b hx) hxA)

/-- With a unique strict maximum the loop yields that single leader. -/
theorem computeLeaders_unique_max (val : String → Nat) (c : String)
    (cs : List String) (A : String) (hnd : (c :: cs).Nodup) (hA : A ∈ c :: cs)
    (hmax : ∀ x ∈ c :: cs, x ≠ A → val x < val A) :
    computeLeaders val (c :: cs) = some (val A, [A]) := by
  rw [computeLeaders_eq]
  have hMA : runMax val (val c) cs = val A := by
    apply le_antisymm
    · apply runMax_le
      · rcases eq_or_ne c A with h | h
        · exact le_of_eq (by rw [h])
        · exact le_of_lt (hmax c (List.mem_cons_self c cs) h)
      · intro x hx
        rcases eq_or_ne x A with h | h
        · exact le_of_eq (by rw [h])
        · exact le_of_lt (hmax x (List.mem_cons_of_mem c hx) h)
    · rcases List.mem_cons.mp hA with h | h
      · subst h
        exact runMax_ge_init val cs _
      · exact runMax_ge_mem val cs _ A h
  rw [hMA]
  have hfilter : (c :: cs).filter (fun x => val x == val A) = [A] := by
    apply filter_eq_singleton _ _ _ hnd hA (by simp)
    intro x hx hxA
    have : val x < val A := hmax x hx hxA
    simp
    omega
  rw [hfilter]

/-! ### Stable sort and tie-break loop lemmas -/

theorem mem_insertStable (idx : String → Int) (x : String) :
    ∀ (l : List String) (a : String),
      a ∈ insertStable idx x l ↔ a = x ∨ a ∈ l := by
  intro l
  induction l with
  | nil => intro a; simp [insertStable]
  | cons y ys ih =>
    intro a
    unfold insertStable
    by_cases h : idx x < idx y
    · simp [h]
    · simp [h, ih a]
      tauto

theorem length_insertStable (idx : String → Int) (x : String) :
    ∀ (l : List String), (insertStable idx x l).length = l.length + 1 := by
  intro l
  induction l with
  | nil => rfl
  | cons y ys ih =>
    unfold insertStable
    by_cases h : idx x < idx y
    · simp [h]
    · simp [h, ih]

theorem mem_foldl_insert (idx : String → Int) :
    ∀ (xs acc : List String) (a : String),
      a ∈ xs.foldl (fun acc x => insertStable idx x acc) acc ↔
        a ∈ acc ∨ a ∈ xs := by
  intro xs
  induction xs with
  | nil => intro acc a; simp
  | cons x xs ih =>
    intro acc a
    rw [List.foldl_cons, ih, mem_insertStable]
    simp
    tauto

theorem length_foldl_insert (idx : String → Int) :
    ∀ (xs acc : List String),
      (xs.foldl (fun acc x => insertStable idx x acc) acc).length =
        acc.length + xs.length := by
  intro xs
  induction xs with
  | nil => intro acc; simp
  | cons x xs ih =>
    intro acc
    rw [List.foldl_cons, ih, length_insertStable]
    simp
    omega

theorem mem_sortStable (idx : String → Int) (xs : List String) (a : String) :
    a ∈ sortStable idx xs ↔ a ∈ xs := by
  unfold sortStable
  rw [mem_foldl_insert]
  simp

theorem length_sortStable (idx : String → Int) (xs : List String) :
    (sortStable idx xs).length = xs.length := by
  unfold sortStable
  rw [length_foldl_insert]
  simp

theorem sortStable_head (idx : String → Int) (L : List String) (hne : L ≠ []) :
    ∃ y, (sortStable idx L).head? = some y ∧ y ∈ L := by
  have hlen : (sortStable idx L).length = L.length := length_sortStable idx L
  have hne2 : sortStable idx L ≠ [] := by
    intro h
    apply hne
    rw [h] at hlen
    exact List.length_eq_zero.mp hlen.symm
  obtain ⟨y, ys, hys⟩ := List.exists_cons_of_ne_nil hne2
  refine ⟨y, by rw [hys]; rfl, ?_⟩
  have : y ∈ sortStable idx L := by
    rw [hys]
    exact List.mem_cons_self y ys
  exact (mem_sortStable idx L y).mp this

theorem tieBreakLoop_cons (pm : OptionWeights) (L : List String) (o : String)
    (rest : List String) :
    tieBreakLoop pm L (o :: rest) =
      match ((pm.lookup o).getD []).head? with
      | some m => if m ≠ "" ∧ m ∈ L then some m else tieBreakLoop pm L rest
      | none => tieBreakLoop pm L rest := rfl

theorem tieBreak_mem (pm : OptionWeights) (L : List String) :
    ∀ (ps : List String) (m : String), tieBreakLoop pm L ps = some m → m ∈ L := by
  intro ps
  induction ps with
  | nil => intro m h; simp [tieBreakLoop] at h
  | cons opt rest ih =>
    intro m h
    rw [tieBreakLoop_cons] at h
    cases hh : ((pm.lookup opt).getD []).head? with
    | none =>
      rw [hh] at h
      exact ih m h
    | some m' =>
      rw [hh] at h
      have h2 : (if m' ≠ "" ∧ m' ∈ L then some m' else tieBreakLoop pm L rest) =
          some m := h
      by_cases hc : m' ≠ "" ∧ m' ∈ L
      · rw [if_pos hc] at h2
        cases h2
        exact hc.2
      · rw [if_neg hc] at h2
        exact ih m h2

theorem tieBreak_append (pm : OptionWeights) (L ps₂ : List String) :
    ∀ ps₁ : List String,
      (∀ o ∈ ps₁, ∀ m, ((pm.lookup o).getD []).head? = some m →
        m = "" ∨ m ∉ L) →
      tieBreakLoop pm L (ps₁ ++ ps₂) = tieBreakLoop pm L ps₂ := by
  intro ps₁
  induction ps₁ with
  | nil => intro _; rfl
  | cons o os ih =>
    intro hskip
    rw [List.cons_append, tieBreakLoop_cons]
    cases hh : ((pm.lookup o).getD []).head? with
    | none =>
      show tieBreakLoop pm L (os ++ ps₂) = tieBreakLoop pm L ps₂
      exact ih fun o' ho' => hskip o' (List.mem_cons_of_mem o ho')
    | some m =>
      have hm := hskip o (List.mem_cons_self o os) m hh
      have hc : ¬ (m ≠ "" ∧ m ∈ L) := by tauto
      show (if m ≠ "" ∧ m ∈ L then some m else tieBreakLoop pm L (os ++ ps₂)) =
        tieBreakLoop pm L ps₂
      rw [if_neg hc]
      exact ih fun o' ho' => hskip o' (List.mem_cons_of_mem o ho')

theorem tieBreak_hit (pm : OptionWeights) (L : List String) (o : String)
    (rest : List String) (A : String)
    (hA : ((pm.lookup o).getD []).head? = some A) (hne : A ≠ "")
    (hmem : A ∈ L) :
    tieBreakLoop pm L (o :: rest) = some A := by
  rw [tieBreakLoop_cons, hA]
  show (if A ≠ "" ∧ A ∈ L then some A else tieBreakLoop pm L rest) = some A
  rw [if_pos ⟨hne, hmem⟩]

/-! ### Fallback-stage lemmas -/

theorem stage3C_total (L : List String) (hne : L ≠ [])
    (hsub : ∀ y ∈ L, y ∈ PRODUCT_ORDER) :
    ∃ x, stage3C L = some x ∧ x ∈ PRODUCT_ORDER := by
  obtain ⟨y, hy, hmem⟩ := sortStable_head (jsIndexOf PRODUCT_ORDER) L hne
  have hyP : y ∈ PRODUCT_ORDER := hsub y hmem
  have hy0 : ¬ y = "" := by
    intro h
    subst h
    exact absurd hyP (by decide)
  refine ⟨y, ?_, hyP⟩
  rw [stage3C, hy]
  show (if y = "" then none else some y) = some y
  rw [if_neg hy0]

theorem stage3R_total (L : List String) (hne : L ≠ [])
    (hsub : ∀ y ∈ L, y ∈ PRODUCT_ORDER) :
    ∃ x, stage3R L = some x ∧ x ∈ PRODUCT_ORDER := by
  obtain ⟨y, hy, hmem⟩ := sortStable_head (jsIndexOf PRODUCT_ORDER) L hne
  exact ⟨y, by rw [stage3R, hy], hsub y hmem⟩

theorem stage3_eq (L : List String) (hne : L ≠ [])
    (hsub : ∀ y ∈ L, y ∈ PRODUCT_ORDER) : stage3C L = stage3R L := by
  obtain ⟨y, hy, hmem⟩ := sortStable_head (jsIndexOf PRODUCT_ORDER) L hne
  have hy0 : ¬ y = "" := by
    intro h
    subst h
    exact absurd (hsub _ hmem) (by decide)
  rw [stage3C, stage3R, hy]
  show (if y = "" then none else some y) = some y
  rw [if_neg hy0]

/-! ### Scoring skip lemmas -/

theorem scoreQuestion_skip (ans : AnswerSet)
    (lidx : List (String × List (String × String)))
    (wn : List (String × (String × OptionWeights))) (t : Tally) (q : Question)
    (h1 : ans.lookup q.title = none) (h2 : ans.lookup q.id = none) :
    scoreQuestion ans lidx wn t q = t := by
  unfold scoreQuestion
  by_cases ht : q.title = ""
  · rw [if_pos ht]
  · rw [if_neg ht]
    cases hf : findWeightsForTitle wn q.title with
    | none => rfl
    | some found => simp [jsChosen, h1, h2]

theorem scoreQuestion_noWeights (ans : AnswerSet)
    (lidx : List (String × List (String × String)))
    (wn : List (String × (String × OptionWeights))) (t : Tally) (q : Question)
    (h : findWeightsForTitle wn q.title = none) :
    scoreQuestion ans lidx wn t q = t := by
  unfold scoreQuestion
  by_cases ht : q.title = ""
  · rw [if_pos ht]
  · rw [if_neg ht, h]

theorem foldl_scoreQuestion_nil
    (lidx : List (String × List (String × String)))
    (wn : List (String × (String × OptionWeights))) :
    ∀ (qs : List Question) (t : Tally),
      qs.foldl (fun t q => scoreQuestion [] lidx wn t q) t = t := by
  intro qs
  induction qs with
  | nil => intro t; rfl
  | cons q qs ih =>
    intro t
    rw [List.foldl_cons, scoreQuestion_skip [] lidx wn t q rfl rfl]
    exact ih t

theorem scoreAnswers_emptyAnswers (w : Option WeightTable)
    (qs : List Question) : scoreAnswers (some []) w qs = [] := by
  cases w with
  | none => rfl
  | some wm =>
    show qs.foldl
      (fun t q => scoreQuestion [] (buildOptionLabelIndex qs) (weightsNormOf wm) t q)
      [] = []
    exact foldl_scoreQuestion_nil _ _ qs []

/-! ### Weight-table lookup lemmas -/

theorem findContainment_eq (n : String) :
    ∀ (l : List (String × (String × OptionWeights))),
      findContainment n l =
        (l.find? (fun p => jsIncludes n p.1 || jsIncludes p.1 n)).map
          Prod.snd := by
  intro l
  induction l with
  | nil => rfl
  | cons p rest ih =>
    obtain ⟨kn, obj⟩ := p
    show (if jsIncludes n kn || jsIncludes kn n then some obj
        else findContainment n rest) = _
    by_cases hc : (jsIncludes n kn || jsIncludes kn n) = true
    · rw [if_pos hc, List.find?_cons_of_pos _ (by simpa using hc)]
      rfl
    · rw [if_neg (by simpa using hc),
        List.find?_cons_of_neg _ (by simpa using hc)]
      exact ih

/-! ### Answer-normalisation lemmas -/

theorem objSet_of_none {β : Type} (m : List (String × β)) (k : String) (v : β)
    (h : m.lookup k = none) : objSet m k v = m ++ [(k, v)] := by
  unfold objSet
  rw [h]
  rfl

theorem normStep_keep (out : AnswerSet) (q : Question) (k : String)
    (v : AnswerValue) (h : out.lookup k = some v) :
    (normStep out q).lookup k = some v := by
  unfold normStep
  by_cases h1 : q.id = "" ∨ q.title = ""
  · rw [if_pos h1]; exact h
  · rw [if_neg h1]
    cases hid : out.lookup q.id with
    | none => exact h
    | some v' =>
      cases hti : out.lookup q.title with
      | some _ => exact h
      | none =>
        show (objSet out q.title v').lookup k = some v
        rw [objSet_of_none out q.title v' hti]
        exact lookup_append_of_some h _

theorem normFold_keep : ∀ (qs : List Question) (out : AnswerSet) (k : String)
    (v : AnswerValue), out.lookup k = some v →
    (qs.foldl normStep out).lookup k = some v := by
  intro qs
  induction qs with
  | nil => intro out k v h; exact h
  | cons q qs ih =>
    intro out k v h
    rw [List.foldl_cons]
    exact ih _ k v (normStep_keep out q k v h)

theorem normStep_absent (out : AnswerSet) (q : Question) (k : String)
    (h : out.lookup k = none) (hk : q.title ≠ k) :
    (normStep out q).lookup k = none := by
  unfold normStep
  by_cases h1 : q.id = "" ∨ q.title = ""
  · rw [if_pos h1]; exact h
  · rw [if_neg h1]
    cases hid : out.lookup q.id with
    | none => exact h
    | some v' =>
      cases hti : out.lookup q.title with
      | some _ => exact h
      | none =>
        show (objSet out q.title v').lookup k = none
        rw [objSet_of_none out q.title v' hti, lookup_append_of_none h]
        have hb : (k == q.title) = false := by
          simpa using fun hE => hk hE.symm
        simp [List.lookup, hb]

theorem normFold_absent : ∀ (qs : List Question) (out : AnswerSet) (k : String),
    out.lookup k = none → (∀ q ∈ qs, q.title ≠ k) →
    (qs.foldl normStep out).lookup k = none := by
  intro qs
  induction qs with
  | nil => intro out k h _; exact h
  | cons q qs ih =>
    intro out k h hT
    rw [List.foldl_cons]
    exact ih _ k (normStep_absent out q k h (hT q (List.mem_cons_self q qs)))
      (fun q' hq' => hT q' (List.mem_cons_of_mem q hq'))

/-! ### Stage 2/3 lemmas and pickWinner reductions -/

theorem stage23C_total (L : List String) (a : Option AnswerSet)
    (w : Option WeightTable) (hne : L ≠ [])
    (hsub : ∀ y ∈ L, y ∈ PRODUCT_ORDER) :
    ∃ x, stage23C L a w = some x ∧ x ∈ PRODUCT_ORDER := by
  unfold stage23C
  cases hpw : priLookupW w with
  | none =>
    cases hpa : priLookupA a with
    | none => exact stage3C_total L hne hsub
    | some v => cases v <;> exact stage3C_total L hne hsub
  | some pm =>
    cases hpa : priLookupA a with
    | none => exact stage3C_total L hne hsub
    | some v =>
      cases v with
      | str s => exact stage3C_total L hne hsub
      | num n => exact stage3C_total L hne hsub
      | arr ps =>
        by_cases hps : ps = []
        · subst hps
          exact stage3C_total L hne hsub
        · cases htb : tieBreakLoop pm L ps with
          | some m =>
            refine ⟨m, ?_, hsub m (tieBreak_mem pm L ps m htb)⟩
            show (if ps = [] then stage3C L
              else match tieBreakLoop pm L ps with
                | some m => some m
                | none => stage3C L) = some m
            rw [if_neg hps, htb]
          | none =>
            obtain ⟨x, hx, hmem⟩ := stage3C_total L hne hsub
            refine ⟨x, ?_, hmem⟩
            show (if ps = [] then stage3C L
              else match tieBreakLoop pm L ps with
                | some m => some m
                | none => stage3C L) = some x
            rw [if_neg hps, htb]
            exact hx

theorem stage23R_total (L : List String) (a : Option AnswerSet)
    (w : Option WeightTable) (hne : L ≠ [])
    (hsub : ∀ y ∈ L, y ∈ PRODUCT_ORDER) :
    ∃ x, stage23R L a w = some x ∧ x ∈ PRODUCT_ORDER := by
  unfold stage23R
  cases hpw : priLookupW w with
  | none =>
    cases hpa : priLookupA a with
    | none => exact stage3R_total L hne hsub
    | some v => cases v <;> exact stage3R_total L hne hsub
  | some pm =>
    cases hpa : priLookupA a with
    | none => exact stage3R_total L hne hsub
    | some v =>
      cases v with
      | str s => exact stage3R_total L hne hsub
      | num n => exact stage3R_total L hne hsub
      | arr ps =>
        by_cases hps : ps = []
        · subst hps
          exact stage3R_total L hne hsub
        · cases htb : tieBreakLoop pm L ps with
          | some m =>
            refine ⟨m, ?_, hsub m (tieBreak_mem pm L ps m htb)⟩
            show (if ps = [] then stage3R L
              else match tieBreakLoop pm L ps with
                | some m => some m
                | none => stage3R L) = some m
            rw [if_neg hps, htb]
          | none =>
            obtain ⟨x, hx, hmem⟩ := stage3R_total L hne hsub
            refine ⟨x, ?_, hmem⟩
            show (if ps = [] then stage3R L
              else match tieBreakLoop pm L ps with
                | some m => some m
                | none => stage3R L) = some x
            rw [if_neg hps, htb]
            exact hx

theorem stage23_eq (L : List String) (a : Option AnswerSet)
    (w : Option WeightTable) (h3 : stage3C L = stage3R L) :
    stage23C L a w = stage23R L a w := by
  unfold stage23C stage23R
  cases hpw : priLookupW w with
  | none =>
    cases hpa : priLookupA a with
    | none => exact h3
    | some v => cases v <;> exact h3
  | some pm =>
    cases hpa : priLookupA a with
    | none => exact h3
    | some v =>
      cases v with
      | str s => exact h3
      | num n => exact h3
      | arr ps =>
        by_cases hps : ps = []
        · subst hps
          exact h3
        · show (if ps = [] then stage3C L
            else match tieBreakLoop pm L ps with
              | some m => some m
              | none => stage3C L) =
            (if ps = [] then stage3R L
            else match tieBreakLoop pm L ps with
              | some m => some m
              | none => stage3R L)
          rw [if_neg hps, if_neg hps]
          cases htb : tieBreakLoop pm L ps with
          | some m => rfl
          | none => exact h3

theorem stage23C_noAns (L : List String) (w : Option WeightTable) :
    stage23C L none w = stage3C L := by
  unfold stage23C
  cases hpw : priLookupW w <;> rfl

theorem stage23C_emptyAns (L : List String) (w : Option WeightTable) :
    stage23C L (some []) w = stage3C L := by
  unfold stage23C
  cases hpw : priLookupW w <;> rfl

theorem stage23C_noW (L : List String) (a : Option AnswerSet) :
    stage23C L a none = stage3C L := by
  unfold stage23C
  cases hpa : priLookupA a with
  | none => rfl
  | some v => cases v <;> rfl

theorem stage23R_emptyAns (L : List String) (w : Option WeightTable) :
    stage23R L (some []) w = stage3R L := by
  unfold stage23R
  cases hpw : priLookupW w <;> rfl

theorem stage23C_tiebreak (L : List String) (a : AnswerSet) (w : WeightTable)
    (pm : OptionWeights) (ps : List String) (A : String)
    (hpw : w.lookup PRIORITIES_TITLE = some pm)
    (hpa : a.lookup PRIORITIES_TITLE = some (AnswerValue.arr ps))
    (hps : ps ≠ []) (htb : tieBreakLoop pm L ps = some A) :
    stage23C L (some a) (some w) = some A := by
  unfold stage23C
  have h1 : priLookupW (some w) = some pm := by simp [priLookupW, hpw]
  have h2 : priLookupA (some a) = some (AnswerValue.arr ps) := by
    simp [priLookupA, hpa]
  rw [h1, h2]
  show (if ps = [] then stage3C L
    else match tieBreakLoop pm L ps with
      | some m => some m
      | none => stage3C L) = some A
  rw [if_neg hps, htb]

theorem stage23R_tiebreak (L : List String) (a : AnswerSet) (w : WeightTable)
    (pm : OptionWeights) (ps : List String) (A : String)
    (hpw : w.lookup PRIORITIES_TITLE = some pm)
    (hpa : a.lookup PRIORITIES_TITLE = some (AnswerValue.arr ps))
    (hps : ps ≠ []) (htb : tieBreakLoop pm L ps = some A) :
    stage23R L (some a) (some w) = some A := by
  unfold stage23R
  have h1 : priLookupW (some w) = some pm := by simp [priLookupW, hpw]
  have h2 : priLookupA (some a) = some (AnswerValue.arr ps) := by
    simp [priLookupA, hpa]
  rw [h1, h2]
  show (if ps = [] then stage3R L
    else match tieBreakLoop pm L ps with
      | some m => some m
      | none => stage3R L) = some A
  rw [if_neg hps, htb]

theorem leadersPO_props (val : String → Nat) :
    leadersPO val ≠ [] ∧ ∀ y ∈ leadersPO val, y ∈ PRODUCT_ORDER := by
  rw [leadersPO_eq]
  refine ⟨leadersPO_ne_nil val, ?_⟩
  intro y hy
  exact (List.mem_filter.mp hy).1

theorem pickWinnerC_eq (tal : Option Tally) (a : Option AnswerSet)
    (w : Option WeightTable) :
    pickWinnerC tal a w =
      if leadersPO (fun code => tgetOpt tal code) = [] then none
      else if (leadersPO (fun code => tgetOpt tal code)).length = 1 then
        (leadersPO (fun code => tgetOpt tal code)).head?
      else stage23C (leadersPO (fun code => tgetOpt tal code)) a w := by
  unfold pickWinnerC
  rw [computeLeaders_leadersPO (fun code => tgetOpt tal code),
    if_neg (show ¬ PRODUCT_ORDER.isEmpty = true by decide)]

theorem pickWinnerRcore_eq (t : Tally) (a : Option AnswerSet)
    (w : Option WeightTable) :
    pickWinnerRcore t a w =
      if (leadersPO (fun code => tget t code)).length = 1 then
        (leadersPO (fun code => tget t code)).head?
      else stage23R (leadersPO (fun code => tget t code)) a w := by
  unfold pickWinnerRcore
  rw [computeLeaders_leadersPO (fun code => tget t code)]

theorem pickWinnerC_total (tal : Option Tally) (a : Option AnswerSet)
    (w : Option WeightTable) :
    ∃ x, pickWinnerC tal a w = some x ∧ x ∈ PRODUCT_ORDER := by
  rw [pickWinnerC_eq]
  obtain ⟨hne, hsub⟩ := leadersPO_props (fun code => tgetOpt tal code)
  rw [if_neg hne]
  by_cases hlen : (leadersPO (fun code => tgetOpt tal code)).length = 1
  · rw [if_pos hlen]
    obtain ⟨x, hx⟩ := List.length_eq_one.mp hlen
    refine ⟨x, ?_, hsub x (by rw [hx]; exact List.mem_singleton_self x)⟩
    rw [hx]
    rfl
  · rw [if_neg hlen]
    exact stage23C_total _ a w hne hsub

theorem pickWinnerRcore_total (t : Tally) (a : Option AnswerSet)
    (w : Option WeightTable) :
    ∃ x, pickWinnerRcore t a w = some x ∧ x ∈ PRODUCT_ORDER := by
  rw [pickWinnerRcore_eq]
  obtain ⟨hne, hsub⟩ := leadersPO_props (fun code => tget t code)
  by_cases hlen : (leadersPO (fun code => tget t code)).length = 1
  · rw [if_pos hlen]
    obtain ⟨x, hx⟩ := List.length_eq_one.mp hlen
    refine ⟨x, ?_, hsub x (by rw [hx]; exact List.mem_singleton_self x)⟩
    rw [hx]
    rfl
  · rw [if_neg hlen]
    exact stage23R_total _ a w hne hsub

theorem pickWinner_core_eqv (t : Tally) (a : Option AnswerSet)
    (w : Option WeightTable) :
    pickWinnerRcore t a w = pickWinnerC (some t) a w := by
  rw [pickWinnerC_eq, pickWinnerRcore_eq,
    show (fun code => tgetOpt (some t) code) = (fun code => tget t code) from rfl]
  obtain ⟨hne, hsub⟩ := leadersPO_props (fun code => tget t code)
  rw [if_neg hne]
  by_cases hlen : (leadersPO (fun code => tget t code)).length = 1
  · rw [if_pos hlen, if_pos hlen]
  · rw [if_neg hlen, if_neg hlen]
    exact (stage23_eq _ a w (stage3_eq _ hne hsub)).symm

theorem pickWinnerC_emptyTally_noAns (w : Option WeightTable) :
    pickWinnerC (some []) none w = some "Eic" := by
  rw [pickWinnerC_eq]
  have hl : leadersPO (fun code => tgetOpt (some []) code) = PRODUCT_ORDER := by
    decide
  rw [hl, if_neg (show ¬ PRODUCT_ORDER = [] by decide),
    if_neg (show ¬ PRODUCT_ORDER.length = 1 by decide), stage23C_noAns]
  decide

theorem pickWinnerC_emptyTally_noW (a : Option AnswerSet) :
    pickWinnerC (some []) a none = some "Eic" := by
  rw [pickWinnerC_eq]
  have hl : leadersPO (fun code => tgetOpt (some []) code) = PRODUCT_ORDER := by
    decide
  rw [hl, if_neg (show ¬ PRODUCT_ORDER = [] by decide),
    if_neg (show ¬ PRODUCT_ORDER.length = 1 by decide), stage23C_noW]
  decide

theorem pickWinnerC_emptyTally_emptyAns (w : Option WeightTable) :
    pickWinnerC (some []) (some []) w = some "Eic" := by
  rw [pickWinnerC_eq]
  have hl : leadersPO (fun code => tgetOpt (some []) code) = PRODUCT_ORDER := by
    decide
  rw [hl, if_neg (show ¬ PRODUCT_ORDER = [] by decide),
    if_neg (show ¬ PRODUCT_ORDER.length = 1 by decide), stage23C_emptyAns]
  decide

theorem pickWinnerRcore_emptyTally_emptyAns (w : Option WeightTable) :
    pickWinnerRcore [] (some []) w = some "Eic" := by
  rw [pickWinnerRcore_eq]
  have hl : leadersPO (fun code => tget [] code) = PRODUCT_ORDER := by decide
  rw [hl, if_neg (show ¬ PRODUCT_ORDER.length = 1 by decide),
    stage23R_emptyAns]
  decide

theorem normFold_noop : ∀ (qs : List Question) (a : AnswerSet),
    (∀ q ∈ qs, (a.lookup q.id).isSome → (a.lookup q.title).isSome) →
    qs.foldl normStep a = a := by
  intro qs
  induction qs with
  | nil => intro a _; rfl
  | cons q qs ih =>
    intro a h
    rw [List.foldl_cons]
    have hstep : normStep a q = a := by
      unfold normStep
      by_cases h1 : q.id = "" ∨ q.title = ""
      · rw [if_pos h1]
      · rw [if_neg h1]
        cases hid : a.lookup q.id with
        | none => rfl
        | some v =>
          have : (a.lookup q.title).isSome :=
            h q (List.mem_cons_self q qs) (by simp [hid])
          obtain ⟨w, hw⟩ := Option.isSome_iff_exists.mp this
          rw [hw]
    rw [hstep]
    exact ih a (fun q' hq' => h q' (List.mem_cons_of_mem q hq'))

theorem normStep_nil (q : Question) : normStep [] q = [] := by
  unfold normStep
  by_cases h1 : q.id = "" ∨ q.title = ""
  · rw [if_pos h1]
  · rw [if_neg h1]
    rfl

theorem normFold_nil : ∀ qs : List Question, qs.foldl normStep [] = [] := by
  intro qs
  induction qs with
  | nil => rfl
  | cons q qs ih =>
    rw [List.foldl_cons, normStep_nil]
    exact ih

theorem scoreAnswersR_nil (w : Option WeightTable) : scoreAnswersR [] w = [] := by
  unfold scoreAnswersR
  generalize w.getD [] = l
  induction l with
  | nil => rfl
  | cons p l ih =>
    rw [List.foldl_cons]
    exact ih

/-! ### Claim theorems -/

/-- Claim C1, counterexample.  The claim asserts that `pickWinner` returns a
winner without throwing for ANY input, null/absent maps included; but the
`pickWinner` of `part_000` evaluates `tallies[code] || 0`, which throws a
TypeError on a null tally map (the `pickWinner` of `QuizClient.jsx` reads
`tallies?.[code]` and does return a winner there). -/
theorem claim1_counterexample :
    pickWinnerR none none none = Except.error () ∧
    pickWinnerC none none none = some "Eic" := by
  constructor
  · rfl
  · decide

/-- Claim C1, amended: for the fixed non-empty `PRODUCT_ORDER`, the
`pickWinner` of `QuizClient.jsx` returns exactly one winner belonging to
`PRODUCT_ORDER` for every tally/answers/weights input including null ones;
the `pickWinner` of `part_000` does so for every non-null tally map;
`scoreAnswers` of `QuizClient.jsx` called with a null/absent weight table or
answer set returns the empty tally map, and the winner then resolves via the
stage-3 default, the first code `"Eic"` of `PRODUCT_ORDER`. -/
theorem claim1_amended (t : Tally) (a : Option AnswerSet)
    (w : Option WeightTable) (qs : List Question) :
    (∃ x, pickWinnerC (some t) a w = some x ∧ x ∈ PRODUCT_ORDER) ∧
    (∃ x, pickWinnerC none a w = some x ∧ x ∈ PRODUCT_ORDER) ∧
    (∃ x, pickWinnerR (some t) a w = Except.ok (some x) ∧ x ∈ PRODUCT_ORDER) ∧
    scoreAnswers none w qs = [] ∧
    scoreAnswers a none qs = [] ∧
    pickWinnerC (some (scoreAnswers none w qs)) none w = some "Eic" ∧
    pickWinnerC (some (scoreAnswers a none qs)) a none = some "Eic" ∧
    PRODUCT_ORDER.head? = some "Eic" := by
  have hs1 : scoreAnswers none w qs = [] := by cases w <;> rfl
  have hs2 : scoreAnswers a none qs = [] := by cases a <;> rfl
  refine ⟨pickWinnerC_total (some t) a w, pickWinnerC_total none a w, ?_,
    hs1, hs2, ?_, ?_, rfl⟩
  · obtain ⟨x, hx, hmem⟩ := pickWinnerRcore_total t a w
    refine ⟨x, ?_, hmem⟩
    show Except.ok (pickWinnerRcore t a w) = Except.ok (some x)
    rw [hx]
  · rw [hs1]
    exact pickWinnerC_emptyTally_noAns w
  · rw [hs2]
    exact pickWinnerC_emptyTally_noW a

/-- Claim C2: with an empty answer set both scorers produce the empty tally,
every code ties at zero, the leaders list is the entire `PRODUCT_ORDER`, and
both `pickWinner`s return its first code `"Eic"` via the stage-3 stable-order
default. -/
theorem claim2_stage3_default (w : Option WeightTable) (qs : List Question) :
    scoreAnswers (some []) w qs = [] ∧
    normaliseAnswersByTitle (some []) qs = [] ∧
    scoreAnswersR [] w = [] ∧
    leadersOf [] = PRODUCT_ORDER ∧
    pickWinnerC (some (scoreAnswers (some []) w qs)) (some []) w =
      some "Eic" ∧
    pickWinnerR (some (scoreAnswersR [] w)) (some []) w =
      Except.ok (some "Eic") ∧
    PRODUCT_ORDER.head? = some "Eic" := by
  have hs := scoreAnswers_emptyAnswers w qs
  have hn := normFold_nil qs
  have hr := scoreAnswersR_nil w
  refine ⟨hs, hn, hr, by decide, ?_, ?_, rfl⟩
  · rw [hs]
    exact pickWinnerC_emptyTally_emptyAns w
  · rw [hr]
    show Except.ok (pickWinnerRcore [] (some []) w) = _
    rw [pickWinnerRcore_emptyTally_emptyAns w]

/-- Claim C4: when one code in `PRODUCT_ORDER` strictly beats every other
code's tally, both `pickWinner`s return it, for every position of that code
in `PRODUCT_ORDER` and for all answers/weights inputs. -/
theorem claim4_single_max_wins (t : Tally) (a : Option AnswerSet)
    (w : Option WeightTable) (A : String) (hA : A ∈ PRODUCT_ORDER)
    (hstrict : ∀ c ∈ PRODUCT_ORDER, c ≠ A → tget t c < tget t A) :
    pickWinnerC (some t) a w = some A ∧
    pickWinnerR (some t) a w = Except.ok (some A) := by
  have hcl : computeLeaders (fun code => tget t code) PRODUCT_ORDER =
      some (tget t A, [A]) :=
    computeLeaders_unique_max (fun code => tget t code) "Eic"
      (PRODUCT_ORDER.drop 1) A (by decide) hA hstrict
  constructor
  · unfold pickWinnerC
    rw [show (fun code => tgetOpt (some t) code) =
        (fun code => tget t code) from rfl,
      hcl, if_neg (show ¬ PRODUCT_ORDER.isEmpty = true by decide)]
    show (if [A] = ([] : List String) then none
      else if ([A] : List String).length = 1 then ([A] : List String).head?
      else stage23C [A] a w) = some A
    rw [if_neg (by simp), if_pos (by simp)]
    rfl
  · show Except.ok (pickWinnerRcore t a w) = Except.ok (some A)
    unfold pickWinnerRcore
    rw [hcl]
    show Except.ok (if ([A] : List String).length = 1 then
      ([A] : List String).head? else stage23R [A] a w) = Except.ok (some A)
    rw [if_pos (by simp)]
    rfl

/-- Witness for claim C4: the tally `{Mjb: 5}` has a unique strict maximum at
`"Mjb"` (tenth in `PRODUCT_ORDER`), and both `pickWinner`s return it. -/
theorem claim4_witness :
    ("Mjb" ∈ PRODUCT_ORDER ∧
      ∀ c ∈ PRODUCT_ORDER, c ≠ "Mjb" →
        tget [("Mjb", 5)] c < tget [("Mjb", 5)] "Mjb") ∧
    pickWinnerC (some [("Mjb", 5)]) none none = some "Mjb" ∧
    pickWinnerR (some [("Mjb", 5)]) none none = Except.ok (some "Mjb") := by
  have h := claim4_single_max_wins [("Mjb", 5)] none none "Mjb" (by decide)
    (by decide)
  exact ⟨⟨by decide, by decide⟩, h.1, h.2⟩

/-- Claim C10: on every natural-valued tally map (and arbitrary, possibly
null, answers and weights) the duplicated `pickWinner` implementations of
`QuizClient.jsx` and `part_000` return the same winner. -/
theorem claim10_pickwinner_equiv (t : Tally) (a : Option AnswerSet)
    (w : Option WeightTable) :
    pickWinnerR (some t) a w = Except.ok (pickWinnerC (some t) a w) := by
  show Except.ok (pickWinnerRcore t a w) = _
  rw [pickWinner_core_eqv]

/-- Claim C3: with more than one tied leader, the priorities answer (keyed by
the exact priorities title) is iterated in selection order; the first
selected label whose first mapped code is truthy and among the leaders wins
immediately, in both `pickWinner`s, regardless of that code's position in
`PRODUCT_ORDER`. -/
theorem claim3_priority_tiebreak (t : Tally) (a : AnswerSet) (w : WeightTable)
    (priMap : OptionWeights) (ps₁ ps₂ : List String) (lab A : String)
    (hlen : 1 < (leadersOf t).length)
    (hw : w.lookup PRIORITIES_TITLE = some priMap)
    (ha : a.lookup PRIORITIES_TITLE =
      some (AnswerValue.arr (ps₁ ++ lab :: ps₂)))
    (hskip : ∀ o ∈ ps₁, ∀ m, ((priMap.lookup o).getD []).head? = some m →
      m = "" ∨ m ∉ leadersOf t)
    (hA : ((priMap.lookup lab).getD []).head? = some A) (hAne : A ≠ "")
    (hAL : A ∈ leadersOf t) :
    pickWinnerC (some t) (some a) (some w) = some A ∧
    pickWinnerR (some t) (some a) (some w) = Except.ok (some A) := by
  have htb : tieBreakLoop priMap (leadersOf t) (ps₁ ++ lab :: ps₂) = some A := by
    rw [tieBreak_append priMap (leadersOf t) (lab :: ps₂) ps₁ hskip]
    exact tieBreak_hit priMap (leadersOf t) lab ps₂ A hA hAne hAL
  have hps : ps₁ ++ lab :: ps₂ ≠ [] := by simp
  have hLnil : ¬ leadersOf t = [] := by
    intro h
    rw [h] at hlen
    simp at hlen
  have hL1 : ¬ (leadersOf t).length = 1 := by omega
  constructor
  · rw [pickWinnerC_eq,
      show (fun code => tgetOpt (some t) code) =
        (fun code => tget t code) from rfl,
      show leadersPO (fun code => tget t code) = leadersOf t from rfl,
      if_neg hLnil, if_neg hL1]
    exact stage23C_tiebreak _ a w priMap _ A hw ha hps htb
  · show Except.ok (pickWinnerRcore t (some a) (some w)) = _
    rw [pickWinnerRcore_eq,
      show leadersPO (fun code => tget t code) = leadersOf t from rfl,
      if_neg hL1, stage23R_tiebreak _ a w priMap _ A hw ha hps htb]

/-- Witness for claim C3: `"Eic"` and `"Rnp"` tie at 1; `"Rnp"` comes after
`"Eic"` in `PRODUCT_ORDER`, yet the first selected priority option maps to
`"Rnp"`, so `"Rnp"` wins in both implementations. -/
theorem claim3_witness :
    pickWinnerC (some [("Eic", 1), ("Rnp", 1)])
      (some [(PRIORITIES_TITLE, AnswerValue.arr ["Sleep"])])
      (some [(PRIORITIES_TITLE, [("Sleep", ["Rnp"])])]) = some "Rnp" ∧
    pickWinnerR (some [("Eic", 1), ("Rnp", 1)])
      (some [(PRIORITIES_TITLE, AnswerValue.arr ["Sleep"])])
      (some [(PRIORITIES_TITLE, [("Sleep", ["Rnp"])])]) =
      Except.ok (some "Rnp") ∧
    leadersOf [("Eic", 1), ("Rnp", 1)] = ["Eic", "Rnp"] := by
  have h := claim3_priority_tiebreak [("Eic", 1), ("Rnp", 1)]
    [(PRIORITIES_TITLE, AnswerValue.arr ["Sleep"])]
    [(PRIORITIES_TITLE, [("Sleep", ["Rnp"])])]
    [("Sleep", ["Rnp"])] [] [] "Sleep" "Rnp"
    (by decide) (by decide) (by decide) (by simp) (by decide) (by decide)
    (by decide)
  exact ⟨h.1, h.2, by decide⟩

/-- Claim C5: for a non-empty option-weights map the slider bucketing maps a
numeric value `n <= 2` to the first key, `n >= 4` to the last key and the
strict middle `3` (also as the numeric string `"3"`) to null, which then
contributes nothing to any tally. -/
theorem claim5_slider_bucketing (om : OptionWeights) (k : String)
    (ks : List String) (hk : om.map Prod.fst = k :: ks) :
    (∀ n : Int, n ≤ 2 → sliderBucketLabel om n = some k) ∧
    (∀ n : Int, 4 ≤ n →
      sliderBucketLabel om n =
        some ((k :: ks).getLast (List.cons_ne_nil k ks))) ∧
    sliderBucketLabel om 3 = none ∧
    (∀ opn lidx, resolveLabels om opn lidx (AnswerValue.num 3) = [] ∧
      resolveLabels om opn lidx (AnswerValue.str "3") = []) ∧
    (∀ opn lidx t,
      tallyLabels om (resolveLabels om opn lidx (AnswerValue.num 3)) t = t) ∧
    (∀ (s : String) (n : Nat) opn lidx, jsDigits s = some n →
      resolveLabels om opn lidx (AnswerValue.str s) =
        sliderResolve om (n : Int)) := by
  have h3 : sliderBucketLabel om 3 = none := by
    unfold sliderBucketLabel
    rw [hk]
    show (if (3 : Int) ≤ 2 then some k
      else if 4 ≤ (3 : Int) then
        some ((k :: ks).getLast (List.cons_ne_nil k ks))
      else none) = none
    rw [if_neg (by norm_num), if_neg (by norm_num)]
  have hres3 : ∀ opn lidx,
      resolveLabels om opn lidx (AnswerValue.num 3) = [] := by
    intro opn lidx
    show sliderResolve om 3 = []
    unfold sliderResolve
    rw [h3]
  refine ⟨?_, ?_, h3, ?_, ?_, ?_⟩
  · intro n hn
    unfold sliderBucketLabel
    rw [hk]
    show (if n ≤ 2 then some k
      else if 4 ≤ n then some ((k :: ks).getLast (List.cons_ne_nil k ks))
      else none) = some k
    rw [if_pos hn]
  · intro n hn
    unfold sliderBucketLabel
    rw [hk]
    show (if n ≤ 2 then some k
      else if 4 ≤ n then some ((k :: ks).getLast (List.cons_ne_nil k ks))
      else none) = some ((k :: ks).getLast (List.cons_ne_nil k ks))
    rw [if_neg (by omega), if_pos hn]
  · intro opn lidx
    refine ⟨hres3 opn lidx, ?_⟩
    show sliderResolve om 3 = []
    unfold sliderResolve
    rw [h3]
  · intro opn lidx t
    rw [hres3 opn lidx]
    rfl
  · intro s n opn lidx hsn
    show (match jsDigits s with
      | some n => sliderResolve om (n : Int)
      | none =>
        let lab := normFix opn (idToLabel om opn lidx s)
        if (om.lookup lab).isSome = true then [lab] else []) =
      sliderResolve om (n : Int)
    rw [hsn]

/-- Witness for claim C5: on the two-key map `{Never: [X], Often: [Y]}`
slider answers 1 and 2 bucket low, 4 and 5 bucket high, 3 resolves to
nothing, and the numeric string `"5"` buckets high. -/
theorem claim5_witness :
    sliderBucketLabel [("Never", ["X"]), ("Often", ["Y"])] 1 = some "Never" ∧
    sliderBucketLabel [("Never", ["X"]), ("Often", ["Y"])] 2 = some "Never" ∧
    sliderBucketLabel [("Never", ["X"]), ("Often", ["Y"])] 4 = some "Often" ∧
    sliderBucketLabel [("Never", ["X"]), ("Often", ["Y"])] 5 = some "Often" ∧
    sliderBucketLabel [("Never", ["X"]), ("Often", ["Y"])] 3 = none ∧
    resolveLabels [("Never", ["X"]), ("Often", ["Y"])] [] []
      (AnswerValue.num 3) = [] ∧
    resolveLabels [("Never", ["X"]), ("Often", ["Y"])] [] []
      (AnswerValue.str "5") = ["Often"] := by
  have h := claim5_slider_bucketing [("Never", ["X"]), ("Often", ["Y"])]
    "Never" ["Often"] rfl
  refine ⟨h.1 1 (by norm_num), h.1 2 (by norm_num), h.2.1 4 (by norm_num),
    h.2.1 5 (by norm_num), h.2.2.1, (h.2.2.2.1 [] []).1, ?_⟩
  rw [h.2.2.2.2.2 "5" 5 [] [] (by decide)]
  decide

/-- Claim C6, counterexample.  With two questions sharing the title `"T"`,
the second question's id key `"i2"` holds `"v2"` and the title key is absent,
yet normalisation populates the title key with the FIRST question's value
`"v1"`, not with the same value `"v2"` as the claim states. -/
theorem claim6_counterexample :
    List.lookup "i2"
      [("i1", AnswerValue.str "v1"), ("i2", AnswerValue.str "v2")] =
      some (AnswerValue.str "v2") ∧
    List.lookup "T"
      [("i1", AnswerValue.str "v1"), ("i2", AnswerValue.str "v2")] = none ∧
    (normaliseAnswersByTitle
      (some [("i1", AnswerValue.str "v1"), ("i2", AnswerValue.str "v2")])
      [⟨"i1", "T", []⟩, ⟨"i2", "T", []⟩]).lookup "T" =
      some (AnswerValue.str "v1") ∧
    ¬ (normaliseAnswersByTitle
      (some [("i1", AnswerValue.str "v1"), ("i2", AnswerValue.str "v2")])
      [⟨"i1", "T", []⟩, ⟨"i2", "T", []⟩]).lookup "T" =
      some (AnswerValue.str "v2") := by
  decide

/-- Claim C6, amended: `normaliseAnswersByTitle` keeps every present key's
value unchanged; when a question's id key holds a value, its title key is
absent, and no earlier question in the list has the same title, the title key
is populated with the same value without altering the id key; and when every
answered question already has its title key present the operation changes
nothing. -/
theorem claim6_amended (a : AnswerSet) (qs : List Question) :
    (∀ k v, a.lookup k = some v →
      (normaliseAnswersByTitle (some a) qs).lookup k = some v) ∧
    (∀ qs₁ q qs₂ v, qs = qs₁ ++ q :: qs₂ → q.id ≠ "" → q.title ≠ "" →
      a.lookup q.id = some v → a.lookup q.title = none →
      (∀ q' ∈ qs₁, q'.title ≠ q.title) →
      (normaliseAnswersByTitle (some a) qs).lookup q.title = some v ∧
      (normaliseAnswersByTitle (some a) qs).lookup q.id = some v) ∧
    ((∀ q ∈ qs, (a.lookup q.id).isSome → (a.lookup q.title).isSome) →
      normaliseAnswersByTitle (some a) qs = a) := by
  refine ⟨?_, ?_, ?_⟩
  · intro k v h
    exact normFold_keep qs a k v h
  · intro qs₁ q qs₂ v hqs hid htitle hav hat hT
    subst hqs
    show ((qs₁ ++ q :: qs₂).foldl normStep a).lookup q.title = some v ∧
      ((qs₁ ++ q :: qs₂).foldl normStep a).lookup q.id = some v
    rw [List.foldl_append, List.foldl_cons]
    have h1 : (qs₁.foldl normStep a).lookup q.id = some v :=
      normFold_keep qs₁ a q.id v hav
    have h2 : (qs₁.foldl normStep a).lookup q.title = none :=
      normFold_absent qs₁ a q.title hat hT
    have hstep : ∀ out : AnswerSet, out.lookup q.id = some v →
        out.lookup q.title = none → normStep out q = out ++ [(q.title, v)] := by
      intro out ho1 ho2
      unfold normStep
      rw [if_neg (show ¬ (q.id = "" ∨ q.title = "") from by tauto), ho1, ho2]
      show objSet out q.title v = _
      exact objSet_of_none _ _ _ ho2
    rw [hstep _ h1 h2]
    constructor
    · have hmid : (qs₁.foldl normStep a ++ [(q.title, v)]).lookup q.title =
          some v := by
        rw [lookup_append_of_none h2]
        simp [List.lookup]
      exact normFold_keep qs₂ _ _ _ hmid
    · exact normFold_keep qs₂ _ _ _ (lookup_append_of_some h1 _)
  · intro h
    exact normFold_noop qs a h

/-- Witness for claim C6: a lone id-keyed answer is mirrored under the title
without altering the id key, and an answer set already carrying both keys is
left unchanged. -/
theorem claim6_witness :
    (normaliseAnswersByTitle (some [("i1", AnswerValue.str "v")])
      [⟨"i1", "T", []⟩]).lookup "T" = some (AnswerValue.str "v") ∧
    (normaliseAnswersByTitle (some [("i1", AnswerValue.str "v")])
      [⟨"i1", "T", []⟩]).lookup "i1" = some (AnswerValue.str "v") ∧
    normaliseAnswersByTitle
      (some [("i1", AnswerValue.str "v"), ("T", AnswerValue.str "v")])
      [⟨"i1", "T", []⟩] =
      [("i1", AnswerValue.str "v"), ("T", AnswerValue.str "v")] := by
  have h := (claim6_amended [("i1", AnswerValue.str "v")]
    [⟨"i1", "T", []⟩]).2.1 [] ⟨"i1", "T", []⟩ [] (AnswerValue.str "v") rfl
    (by decide) (by decide) (by decide) (by decide) (by simp)
  have h2 := (claim6_amended
    [("i1", AnswerValue.str "v"), ("T", AnswerValue.str "v")]
    [⟨"i1", "T", []⟩]).2.2 (by decide)
  exact ⟨h.1, h.2, h2⟩

/-- Claim C7: every selected option of a multi-choice answer contributes
independently, once per occurrence of a product code in the code list of the
label it resolves to; the same holds for the raw-option loop of `part_000`.
In particular N selected options all mapping to code X add N to X's tally. -/
theorem claim7_multi_select_aggregation (om : OptionWeights)
    (opn lidx : List (String × String)) (xs : List String) (t : Tally)
    (X : String) (hX : X ≠ "") :
    tget (tallyLabels om (resolveLabels om opn lidx (AnswerValue.arr xs)) t) X =
      tget t X +
        ((resolveLabels om opn lidx (AnswerValue.arr xs)).map
          (fun lab => ((om.lookup lab).getD []).count X)).sum ∧
    tget (tallyLabels om xs t) X =
      tget t X + (xs.map (fun opt => ((om.lookup opt).getD []).count X)).sum :=
  ⟨tget_tallyLabels om _ t X hX, tget_tallyLabels om xs t X hX⟩

/-- Witness for claim C7: selecting `{"Energy", "Sleep"}`, both mapped to
product `"X"`, contributes 2 to `"X"`'s tally, not 1. -/
theorem claim7_witness :
    tget (tallyLabels [("Energy", ["X"]), ("Sleep", ["X"])]
      (resolveLabels [("Energy", ["X"]), ("Sleep", ["X"])]
        (mapFromPairs ([("Energy", ["X"]), ("Sleep", ["X"])].map
          (fun p => (norm p.1, p.1)))) []
        (AnswerValue.arr ["Energy", "Sleep"])) []) "X" = 2 ∧
    resolveLabels [("Energy", ["X"]), ("Sleep", ["X"])]
      (mapFromPairs ([("Energy", ["X"]), ("Sleep", ["X"])].map
        (fun p => (norm p.1, p.1)))) []
      (AnswerValue.arr ["Energy", "Sleep"]) = ["Energy", "Sleep"] := by
  have h := (claim7_multi_select_aggregation [("Energy", ["X"]), ("Sleep", ["X"])]
    (mapFromPairs ([("Energy", ["X"]), ("Sleep", ["X"])].map
      (fun p => (norm p.1, p.1)))) [] ["Energy", "Sleep"] [] "X"
    (by decide)).1
  constructor
  · rw [h]
    decide
  · decide

/-- Claim C8: the weight-table entry for a question title is found by exact
lookup of the normalised title among the normalised keys, with a
containment-either-way fallback taking the first matching entry in table
iteration order; when neither matches, the question contributes zero to every
tally. -/
theorem claim8_title_lookup (wm : WeightTable) :
    (∀ qTitle : String,
      findWeightsForTitle (weightsNormOf wm) qTitle =
        Option.or ((weightsNormOf wm).lookup (norm qTitle))
          (((weightsNormOf wm).find?
            (fun p => jsIncludes (norm qTitle) p.1 ||
              jsIncludes p.1 (norm qTitle))).map Prod.snd)) ∧
    (∀ (ans : AnswerSet) (lidx : List (String × List (String × String)))
      (t : Tally) (q : Question),
      findWeightsForTitle (weightsNormOf wm) q.title = none →
      scoreQuestion ans lidx (weightsNormOf wm) t q = t) := by
  constructor
  · intro qTitle
    unfold findWeightsForTitle
    cases hl : (weightsNormOf wm).lookup (norm qTitle) with
    | some obj => rfl
    | none =>
      rw [findContainment_eq]
      rfl
  · intro ans lidx t q h
    exact scoreQuestion_noWeights ans lidx _ t q h

/-- Witness for claim C8: a title with no exact or containment match leaves
the tally untouched. -/
theorem claim8_witness :
    scoreQuestion [("Sleep quality", AnswerValue.str "x")] []
      (weightsNormOf [("Goal", [("Energy", ["Eic"])])]) [("Eic", 2)]
      ⟨"q9", "Sleep quality", []⟩ = [("Eic", 2)] ∧
    findWeightsForTitle (weightsNormOf [("Goal", [("Energy", ["Eic"])])])
      "Sleep quality" = none := by
  have h := (claim8_title_lookup [("Goal", [("Energy", ["Eic"])])]).2
    [("Sleep quality", AnswerValue.str "x")] [] [("Eic", 2)]
    ⟨"q9", "Sleep quality", []⟩ (by decide)
  exact ⟨h, by decide⟩

end NourishedQuiz
